import Mathlib

/-!
Shallow embedding of the motion-interpreter core of the ClientePython
repository, and verification of the specification's claims about it.

Embedded source functions:
* `GCodeCommand.from_line`  — src/models.py, lines 29-67
* `Robot3DViewer` state and its methods — src/gui_client/robot_3d_viewer.py
  (`update_position`, `set_robot_state`, `home_robot`, `execute_gcode`,
  `_execute_gcode_sequence`, `_execute_gcode_command`, `_execute_movement`,
  `_move_to_position`, `stop_gcode_execution`, the animation step of
  `_run_viewer`, `_calculate_arm_angles`, `_lerp`, `_smooth_step`).

Python strings are modelled as `List Char`; Python floats are modelled as `ℚ`
in the executable state machine (only field operations and comparisons occur
there) and as `ℝ` in the kinematics solver (which uses `sqrt`/trigonometry).
Python exceptions are modelled explicitly: the caught `ZeroDivisionError` of
`_calculate_arm_angles` becomes an `if` on the zero denominator, and the
caught `ValueError` of `float()` makes the float parser return `Option`.
-/

/-- Python whitespace characters, as used by `str.strip()` and `str.split()`
with no arguments. -/
def pyWs (c : Char) : Bool :=
  c == ' ' || c == '\t' || c == '\n' || c == '\r' || c == '\x0b' || c == '\x0c'

/-- `str.strip()` on a list of characters: drop leading and trailing
whitespace. -/
def strip (l : List Char) : List Char :=
  ((l.dropWhile pyWs).reverse.dropWhile pyWs).reverse

/-- The part of the line before the first `;` (the whole line when there is
no `;`), as produced by Python's `raw.split(";", 1)[0]`. -/
def beforeSemi (l : List Char) : List Char :=
  l.takeWhile (fun c => !(c == ';'))

/-- The part of the line after the first `;` (empty when there is no `;`),
as produced by Python's `raw.split(";", 1)[1]`. -/
def afterSemi (l : List Char) : List Char :=
  (l.dropWhile (fun c => !(c == ';'))).drop 1

/-- Helper for `words`: flush the (reversed) current word into the
accumulator, skipping empty words as Python's `str.split()` does. -/
def flushWord (cur : List Char) (acc : List (List Char)) : List (List Char) :=
  if cur.isEmpty then acc else cur.reverse :: acc

/-- Helper for `words`: accumulator-driven whitespace split. -/
def wordsGo : List Char → List Char → List (List Char) → List (List Char)
  | [], cur, acc => (flushWord cur acc).reverse
  | c :: cs, cur, acc =>
    if pyWs c then wordsGo cs [] (flushWord cur acc)
    else wordsGo cs (c :: cur) acc

/-- Python's `str.split()` with no arguments: split on runs of whitespace,
dropping empty pieces. -/
def words (l : List Char) : List (List Char) :=
  wordsGo l [] []

/-- Digit run to a natural number. -/
def digitsToNat (l : List Char) : Nat :=
  l.foldl (fun n c => n * 10 + (c.toNat - 48)) 0

/-- Unsigned part of the Python `float()` conversion, restricted to the plain
decimal forms (`digits`, `digits.digits`, `.digits`, `digits.`) that G-code
argument fields exercise.  `none` models `float()` raising `ValueError`. -/
def pyFloatCore (l : List Char) : Option ℚ :=
  let ip := l.takeWhile Char.isDigit
  let rest := l.drop ip.length
  match rest with
  | [] => if ip.isEmpty then none else some (digitsToNat ip : ℚ)
  | '.' :: fp =>
    if fp.all Char.isDigit && !(ip.isEmpty && fp.isEmpty) then
      some ((digitsToNat ip : ℚ) + (digitsToNat fp : ℚ) / (10 ^ fp.length))
    else none
  | _ => none

/-- Python `float()` on a token, with an optional leading sign;
`none` models a raised `ValueError`. -/
def pyFloat (l : List Char) : Option ℚ :=
  match l with
  | '+' :: r => pyFloatCore r
  | '-' :: r => (pyFloatCore r).map Neg.neg
  | r => pyFloatCore r

/-- Python `dict` assignment `d[k] = v`: overwrite the value when the key is
present (keeping its position), append otherwise. -/
def dictInsert (d : List (Char × ℚ)) (k : Char) (v : ℚ) : List (Char × ℚ) :=
  if d.any (fun p => p.1 == k) then
    d.map (fun p => if p.1 == k then (k, v) else p)
  else d ++ [(k, v)]

/-- Python `dict.get(k)`. -/
def dictGet (d : List (Char × ℚ)) (k : Char) : Option ℚ :=
  (d.find? (fun p => p.1 == k)).map Prod.snd

/-- `GCodeCommand` of src/models.py: code, single-letter float arguments,
comment. -/
structure GCodeCommand where
  code : List Char
  args : List (Char × ℚ)
  comment : List Char
deriving DecidableEq

/-- Argument-token step of `GCodeCommand.from_line`: for a token of the form
`key ++ value`, parse `value` as a float and store it under the upper-cased
first character; a token whose value does not parse is silently dropped. -/
def argStep (d : List (Char × ℚ)) (token : List Char) : List (Char × ℚ) :=
  match token with
  | [] => d
  | k :: val =>
    match pyFloat val with
    | some q => dictInsert d (Char.toUpper k) q
    | none => d

/-- `GCodeCommand.from_line` of src/models.py (lines 29-67): strip the line,
return `none` when empty; split off a `;` comment and re-strip, returning
`none` when nothing remains; otherwise the first whitespace-separated token
(upper-cased) is the code and the remaining tokens are parsed as arguments.
The `| [] => none` branch of the inner match is unreachable (the stripped
text is nonempty and starts with a non-whitespace character), mirroring that
Python's `parts[0]` cannot fail there. -/
def from_line (line : List Char) : Option GCodeCommand :=
  let raw0 := strip line
  if raw0 = [] then none
  else
    let raw1 := if ';' ∈ raw0 then strip (beforeSemi raw0) else raw0
    let comment := if ';' ∈ raw0 then strip (afterSemi raw0) else []
    if raw1 = [] then none
    else
      match words raw1 with
      | [] => none
      | tok :: rest =>
        some { code := tok.map Char.toUpper
             , args := rest.foldl argStep []
             , comment := comment }

/-- A line is blank or comment-only when every character before the first `;`
is whitespace.  This is the specification-side characterisation used by the
parser-totality claim. -/
def blankOrCommentOnly (line : List Char) : Bool :=
  (beforeSemi line).all pyWs

/-- Coordinate mode of the viewer: `'absolute'` or `'relative'`. -/
inductive CoordMode
  | absolute
  | relative
deriving DecidableEq

/-- A three-component position with exact rational coordinates. -/
structure Vec3Q where
  x : ℚ
  y : ℚ
  z : ℚ
deriving DecidableEq

/-- The mutable state of `Robot3DViewer` (src/gui_client/robot_3d_viewer.py),
restricted to the fields the motion interpreter reads or writes.  Camera and
window fields are omitted: no embedded method touches them. -/
structure RState where
  robot_position : Vec3Q
  target_position : Vec3Q
  animation_progress : ℚ
  animation_speed : ℚ
  motors_enabled : Bool
  effector_active : Bool
  is_executing_gcode : Bool
  gcode_queue : List (List Char)
  current_position : Vec3Q
  coordinate_mode : CoordMode
  home_position : Vec3Q
  lower_arm_length : ℚ
  upper_arm_length : ℚ
  effector_length : ℚ
  base_height : ℚ
deriving DecidableEq

/-- The home pose with the default configuration
(`LOWER_ARM_LENGTH = UPPER_ARM_LENGTH = 120`, `EFFECTOR_LENGTH = 18`):
`(0, lower + upper + effector, 0)`. -/
def homePose : Vec3Q := ⟨0, 120 + 120 + 18, 0⟩

/-- `Robot3DViewer.__init__` with the default configuration constants of
viewer_3d_config fallback values. -/
def initState : RState :=
  { robot_position := homePose
  , target_position := homePose
  , animation_progress := 1
  , animation_speed := 1
  , motors_enabled := false
  , effector_active := false
  , is_executing_gcode := false
  , gcode_queue := []
  , current_position := homePose
  , coordinate_mode := .absolute
  , home_position := homePose
  , lower_arm_length := 120
  , upper_arm_length := 120
  , effector_length := 18
  , base_height := 60 }

/-- `update_position` (lines 139-157): rejected outright when the motors are
disabled; otherwise set the target and either restart the animation or snap
to the target. -/
def update_position (s : RState) (x y z : ℚ) (animate : Bool) : RState :=
  if s.motors_enabled = false then s
  else if animate then
    { s with target_position := ⟨x, y, z⟩, animation_progress := 0 }
  else
    { s with target_position := ⟨x, y, z⟩
           , robot_position := ⟨x, y, z⟩
           , animation_progress := 1 }

/-- `set_robot_state` (lines 159-170): optionally update each flag. -/
def set_robot_state (s : RState) (me ea : Option Bool) : RState :=
  let s1 := match me with
            | some b => { s with motors_enabled := b }
            | none => s
  match ea with
  | some b => { s1 with effector_active := b }
  | none => s1

/-- `home_robot` (lines 172-179).  In the source the call
`self.update_position(*self.home_position)` is indented inside the
`if not self.motors_enabled` block after its `return`, so it is dead code:
on both branches the method only prints a warning or nothing, and the state
is unchanged. -/
def home_robot (s : RState) : RState :=
  if s.motors_enabled = false then s else s

/-- `stop_gcode_execution` (lines 313-315). -/
def stop_gcode_execution (s : RState) : RState :=
  { s with is_executing_gcode := false }

/-- `execute_gcode` (lines 181-197): rejected when the motors are disabled;
otherwise store the program, raise the executing flag and reset the
coordinate mode to absolute.  (The thread start is modelled by the `Phase`
machine below.) -/
def execute_gcode (s : RState) (prog : List (List Char)) : RState :=
  if s.motors_enabled = false then s
  else
    { s with gcode_queue := prog
           , is_executing_gcode := true
           , coordinate_mode := .absolute }

/-- `_move_to_position` (lines 299-311), state part: start an animated move
and record the commanded position; the trailing wait loop is time, modelled
by the `Phase.waiting` state of the system machine. -/
def move_to_position (s : RState) (x y z : ℚ) : RState :=
  { update_position s x y z true with current_position := ⟨x, y, z⟩ }

/-- `_execute_movement` (lines 271-297): resolve the target from the `X`, `Y`,
`Z` parameters — literally in absolute mode, added to the current position in
relative mode, missing axes keeping their current value — and move there. -/
def execute_movement (s : RState) (params : List (Char × ℚ)) : RState :=
  let x := dictGet params 'X'
  let y := dictGet params 'Y'
  let z := dictGet params 'Z'
  let n : Vec3Q :=
    match s.coordinate_mode with
    | .absolute =>
      ⟨x.getD s.current_position.x, y.getD s.current_position.y, z.getD s.current_position.z⟩
    | .relative =>
      ⟨s.current_position.x + x.getD 0, s.current_position.y + y.getD 0,
       s.current_position.z + z.getD 0⟩
  move_to_position s n.x n.y n.z

/-- Parameter-token step of `_execute_gcode_command`: a token of length at
least 2 contributes its first character as key and the float value of the
rest; other tokens, and tokens whose value fails to parse, are skipped. -/
def paramStep (d : List (Char × ℚ)) (part : List Char) : List (Char × ℚ) :=
  match part with
  | c :: v :: rest =>
    match pyFloat (v :: rest) with
    | some q => dictInsert d c q
    | none => d
  | _ => d

/-- The main command token of a line as `_execute_gcode_command` sees it:
`none` for an empty or `;`-starting line, otherwise the first
whitespace-separated token of the upper-cased line. -/
def mainToken (command : List Char) : Option (List Char) :=
  if command = [] ∨ command.head? = some ';' then none
  else (words (command.map Char.toUpper)).head?

/-- `_execute_gcode_command` (lines 216-269): ignore blank and comment lines,
upper-case and split the line, collect letter-float parameters, and dispatch
on the command code (`G90`, `G91`, `G0`/`G1`, `M3`, `M5`, `G24`; anything
else is logged and skipped). -/
def execute_gcode_command (s : RState) (command : List Char) : RState :=
  if command = [] ∨ command.head? = some ';' then s
  else
    let parts := words (command.map Char.toUpper)
    if parts = [] then s
    else
      let main := parts.headD []
      let params := parts.tail.foldl paramStep []
      if main = "G90".toList then { s with coordinate_mode := .absolute }
      else if main = "G91".toList then { s with coordinate_mode := .relative }
      else if main = "G0".toList ∨ main = "G1".toList then execute_movement s params
      else if main = "M3".toList then { s with effector_active := true }
      else if main = "M5".toList then { s with effector_active := false }
      else if main = "G24".toList then
        move_to_position s s.home_position.x s.home_position.y s.home_position.z
      else s

/-- `_lerp` (lines 1007-1009). -/
def lerp (a b t : ℚ) : ℚ := a + (b - a) * t

/-- `_smooth_step` (lines 1011-1013). -/
def smooth_step (t : ℚ) : ℚ := t * t * (3 - 2 * t)

/-- The per-frame animation step of `_run_viewer` (lines 369-379): when the
animation is unfinished, advance the clamped progress and move each axis of
the interpolated position toward the target through the eased progress.
Note that this step never consults `motors_enabled`. -/
def run_viewer_tick (s : RState) (dt : ℚ) : RState :=
  if s.animation_progress < 1 then
    let p := min 1 (s.animation_progress + dt * s.animation_speed)
    { s with animation_progress := p
           , robot_position :=
               ⟨lerp s.robot_position.x s.target_position.x (smooth_step p),
                lerp s.robot_position.y s.target_position.y (smooth_step p),
                lerp s.robot_position.z s.target_position.z (smooth_step p)⟩ }
  else s

/-- Control position of the `_execute_gcode_sequence` thread: about to run
the loop body for command `i` (`dispatch`), polling the animation wait loop
of `_move_to_position` (`waiting`), in the inter-command
`time.sleep(gcode_execution_speed)` (`pausing`), or finished (`halted`). -/
inductive Phase
  | idle
  | dispatch (i : Nat)
  | waiting (i : Nat)
  | pausing (i : Nat)
  | halted
deriving DecidableEq

/-- Combined state of the viewer and the executor thread. -/
structure Sys where
  st : RState
  ph : Phase
deriving DecidableEq

/-- Externally visible events of the combined system: a render-loop frame, a
program submission, a cancellation request, a motors toggle, and one step of
the executor thread. -/
inductive Ev
  | tick (dt : ℚ)
  | submit (prog : List (List Char))
  | cancel
  | setMotors (b : Bool)
  | execStep
deriving DecidableEq

/-- One transition of the combined system.  `execStep` follows
`_execute_gcode_sequence` (lines 199-214) and the wait loop of
`_move_to_position` (lines 309-311): at a command boundary the loop checks
`is_executing_gcode` and `motors_enabled` and otherwise executes the next
command; the wait loop polls only `animation_progress`; the inter-command
pause then returns to the next boundary.  Leaving the loop (by exhaustion or
by the `break`) clears `is_executing_gcode`. -/
def sysStep (σ : Sys) : Ev → Sys
  | .tick dt => ⟨run_viewer_tick σ.st dt, σ.ph⟩
  | .submit prog =>
    if σ.st.motors_enabled = false then ⟨execute_gcode σ.st prog, σ.ph⟩
    else ⟨execute_gcode σ.st prog, .dispatch 0⟩
  | .cancel => ⟨stop_gcode_execution σ.st, σ.ph⟩
  | .setMotors b => ⟨set_robot_state σ.st (some b) none, σ.ph⟩
  | .execStep =>
    match σ.ph with
    | .dispatch i =>
      match σ.st.gcode_queue[i]? with
      | none => ⟨{ σ.st with is_executing_gcode := false }, .halted⟩
      | some cmd =>
        if σ.st.is_executing_gcode = false ∨ σ.st.motors_enabled = false then
          ⟨{ σ.st with is_executing_gcode := false }, .halted⟩
        else ⟨execute_gcode_command σ.st (strip cmd), .waiting i⟩
    | .waiting i =>
      if σ.st.animation_progress < 1 then σ else ⟨σ.st, .pausing i⟩
    | .pausing i => ⟨σ.st, .dispatch (i + 1)⟩
    | _ => σ

/-- Run a sequence of events from a system state. -/
def sysRun (σ : Sys) (evs : List Ev) : Sys :=
  evs.foldl sysStep σ

/-- The freshly constructed viewer with no executor thread. -/
def initSys : Sys := ⟨initState, .idle⟩

/-- C10: for every viewer state, motors enabled or disabled, the public
`home_robot` method leaves the whole state — in particular `robot_position`,
`target_position` and `animation_progress` — unchanged: the
`update_position(*home_position)` call in its body sits after the early
`return` and is unreachable, so `home_robot` never initiates motion. -/
theorem C10_home_robot_noop (s : RState) :
    home_robot s = s ∧
    (home_robot s).robot_position = s.robot_position ∧
    (home_robot s).target_position = s.target_position ∧
    (home_robot s).animation_progress = s.animation_progress := by
  have h : home_robot s = s := by
    unfold home_robot
    split <;> rfl
  exact ⟨h, by rw [h], by rw [h], by rw [h]⟩

/-- The state reached from the fresh viewer by enabling the motors,
commanding an animated move to `(10, 200, 0)`, and then disabling the motors
mid-animation. -/
def c3MidMoveState : RState :=
  set_robot_state
    (update_position (set_robot_state initState (some true) none) 10 200 0 true)
    (some false) none

/-- C3 fails as stated: the per-tick animation step moves the interpolated
position while the motors are disabled.  In the reachable state
`c3MidMoveState` the motors are off, yet the next animation frame changes
`robot_position` (its `x` coordinate moves from `0` to `5`). -/
theorem C3_counterexample :
    c3MidMoveState.motors_enabled = false ∧
    (run_viewer_tick c3MidMoveState (1/2)).robot_position
      ≠ c3MidMoveState.robot_position := by
  have hx : (run_viewer_tick c3MidMoveState (1/2)).robot_position.x = 5 := by
    norm_num [c3MidMoveState, set_robot_state, update_position, initState, homePose,
      run_viewer_tick, lerp, smooth_step, min_def]
  have hx0 : c3MidMoveState.robot_position.x = 0 := by
    norm_num [c3MidMoveState, set_robot_state, update_position, initState, homePose]
  refine ⟨rfl, fun hcontra => ?_⟩
  have h50 := congrArg Vec3Q.x hcontra
  rw [hx, hx0] at h50
  norm_num at h50

/-- C3 (amended): `update_position` leaves the state unchanged whenever the
motors are disabled (no new motion can be initiated), but the per-tick
animation step does not consult `motors_enabled` at all — it advances any
in-flight interpolation identically whether the motors are enabled or not,
so the interpolated position can still change on a tick taken while
`motors_enabled = false`. -/
theorem C3_motors_disabled_no_new_motion (s : RState) (x y z : ℚ) (animate : Bool) (dt : ℚ) :
    update_position { s with motors_enabled := false } x y z animate
      = { s with motors_enabled := false } ∧
    (run_viewer_tick { s with motors_enabled := false } dt).robot_position
      = (run_viewer_tick s dt).robot_position ∧
    (run_viewer_tick { s with motors_enabled := false } dt).animation_progress
      = (run_viewer_tick s dt).animation_progress := by
  refine ⟨by simp [update_position], ?_, ?_⟩ <;>
    · unfold run_viewer_tick
      by_cases h : s.animation_progress < 1 <;> simp [h]

/-- C8: the animation step is monotone in `animation_progress` for
non-negative `dt` (and non-negative configured speed), its progress is
clamped at `1` and stays in `[0, 1]`, the tick never changes the target, and
when the tick makes the progress reach `1` the interpolated position equals
the target exactly. -/
theorem C8_tick_monotone_clamped (s : RState) (dt : ℚ)
    (hdt : 0 ≤ dt) (hspeed : 0 ≤ s.animation_speed) :
    s.animation_progress ≤ (run_viewer_tick s dt).animation_progress ∧
    (0 ≤ s.animation_progress → s.animation_progress ≤ 1 →
      0 ≤ (run_viewer_tick s dt).animation_progress ∧
      (run_viewer_tick s dt).animation_progress ≤ 1) ∧
    (run_viewer_tick s dt).target_position = s.target_position ∧
    (s.animation_progress < 1 → (run_viewer_tick s dt).animation_progress = 1 →
      (run_viewer_tick s dt).robot_position = (run_viewer_tick s dt).target_position) := by
  have hstep : 0 ≤ dt * s.animation_speed := mul_nonneg hdt hspeed
  have hlerp : ∀ a b : ℚ, lerp a b (smooth_step 1) = b := by
    intro a b
    unfold lerp smooth_step
    ring
  by_cases h : s.animation_progress < 1
  · refine ⟨?_, fun h0 _ => ⟨?_, ?_⟩, ?_, fun _ hone => ?_⟩
    · simp only [run_viewer_tick, if_pos h]
      exact le_min h.le (le_add_of_nonneg_right hstep)
    · simp only [run_viewer_tick, if_pos h]
      exact le_min (by norm_num) (by linarith)
    · simp only [run_viewer_tick, if_pos h]
      exact min_le_left _ _
    · simp only [run_viewer_tick, if_pos h]
    · simp only [run_viewer_tick, if_pos h] at hone ⊢
      rw [hone, hlerp, hlerp, hlerp]
  · have htick : run_viewer_tick s dt = s := by
      simp only [run_viewer_tick, if_neg h]
    rw [htick]
    exact ⟨le_refl _, fun h0 h1 => ⟨h0, h1⟩, rfl, fun hlt _ => absurd hlt h⟩

/-- Witness for `C8_tick_monotone_clamped` at a concrete in-flight state. -/
theorem C8_tick_monotone_clamped_witness :
    ((0:ℚ) ≤ 2) ∧
    { initState with animation_progress := 1/2 }.animation_progress
      ≤ (run_viewer_tick { initState with animation_progress := 1/2 } 2).animation_progress ∧
    (run_viewer_tick { initState with animation_progress := 1/2 } 2).animation_progress ≤ 1 := by
  have h := C8_tick_monotone_clamped { initState with animation_progress := 1/2 } 2
    (by norm_num) (by norm_num [initState])
  exact ⟨by norm_num, h.1, (h.2.1 (by norm_num) (by norm_num)).2⟩

/-- `update_position` never touches the coordinate mode. -/
lemma update_position_mode (s : RState) (x y z : ℚ) (animate : Bool) :
    (update_position s x y z animate).coordinate_mode = s.coordinate_mode := by
  unfold update_position
  split_ifs <;> rfl

/-- `_move_to_position` never touches the coordinate mode. -/
lemma move_to_position_mode (s : RState) (x y z : ℚ) :
    (move_to_position s x y z).coordinate_mode = s.coordinate_mode := by
  unfold move_to_position
  rw [show ({ update_position s x y z true with current_position := ⟨x, y, z⟩ } : RState).coordinate_mode
        = (update_position s x y z true).coordinate_mode from rfl]
  exact update_position_mode s x y z true

/-- `_execute_movement` never touches the coordinate mode. -/
lemma execute_movement_mode (s : RState) (params : List (Char × ℚ)) :
    (execute_movement s params).coordinate_mode = s.coordinate_mode := by
  unfold execute_movement
  exact move_to_position_mode s _ _ _

/-- The system state after enabling the motors, submitting the one-command
program `["G91"]`, and letting the executor thread run that command: the
coordinate mode is now relative. -/
def c4RelativeSys : Sys :=
  sysRun initSys [Ev.setMotors true, Ev.submit ["G91".toList], Ev.execStep]

/-- C4 fails as stated: submitting a new program through `execute_gcode` also
changes the coordinate mode.  From the reachable state `c4RelativeSys`, whose
mode is relative, submitting another program (here `["M3"]`) with the motors
enabled resets the mode to absolute even though no `G90` or `G91` command ran. -/
theorem C4_counterexample :
    c4RelativeSys.st.coordinate_mode = CoordMode.relative ∧
    (execute_gcode c4RelativeSys.st ["M3".toList]).coordinate_mode = CoordMode.absolute := by
  exact ⟨rfl, rfl⟩

/-- C4 (amended): the coordinate mode changes only through the explicit mode
commands `G90` (to absolute) and `G91` (to relative) and through the reset to
absolute that `execute_gcode` performs when it accepts a new program;
movement commands, `M3`/`M5`, `G24`, unrecognized commands, and every other
viewer operation leave the coordinate mode unchanged. -/
theorem C4_mode_transitions (s : RState) (cmd : List Char) (prog : List (List Char))
    (x y z : ℚ) (animate : Bool) (me ea : Option Bool) (dt : ℚ) :
    ((execute_gcode_command s cmd).coordinate_mode = s.coordinate_mode ∨
      mainToken cmd = some ("G90".toList) ∨ mainToken cmd = some ("G91".toList)) ∧
    ((execute_gcode s prog).coordinate_mode = s.coordinate_mode ∨
      (execute_gcode s prog).coordinate_mode = CoordMode.absolute) ∧
    (update_position s x y z animate).coordinate_mode = s.coordinate_mode ∧
    (set_robot_state s me ea).coordinate_mode = s.coordinate_mode ∧
    (home_robot s).coordinate_mode = s.coordinate_mode ∧
    (stop_gcode_execution s).coordinate_mode = s.coordinate_mode ∧
    (run_viewer_tick s dt).coordinate_mode = s.coordinate_mode ∧
    (move_to_position s x y z).coordinate_mode = s.coordinate_mode := by
  refine ⟨?_, ?_, update_position_mode s x y z animate, ?_, ?_, rfl, ?_, move_to_position_mode s x y z⟩
  · by_cases hc : cmd = [] ∨ cmd.head? = some ';'
    · refine Or.inl ?_
      unfold execute_gcode_command
      rw [if_pos hc]
    · cases hw : words (cmd.map Char.toUpper) with
      | nil =>
        refine Or.inl ?_
        unfold execute_gcode_command
        rw [if_neg hc, hw, if_pos rfl]
      | cons main rest =>
        by_cases h90 : main = "G90".toList
        · refine Or.inr (Or.inl ?_)
          unfold mainToken
          rw [if_neg hc, hw, h90]
          rfl
        · by_cases h91 : main = "G91".toList
          · refine Or.inr (Or.inr ?_)
            unfold mainToken
            rw [if_neg hc, hw, h91]
            rfl
          · refine Or.inl ?_
            unfold execute_gcode_command
            rw [if_neg hc, hw]
            rw [if_neg (by simp : ¬(main :: rest : List (List Char)) = [])]
            rw [show (main :: rest).headD [] = main from rfl,
                show (main :: rest).tail = rest from rfl]
            rw [if_neg h90, if_neg h91]
            by_cases h01 : main = "G0".toList ∨ main = "G1".toList
            · rw [if_pos h01]
              exact execute_movement_mode s _
            · rw [if_neg h01]
              by_cases h3 : main = "M3".toList
              · rw [if_pos h3]
              · rw [if_neg h3]
                by_cases h5 : main = "M5".toList
                · rw [if_pos h5]
                · rw [if_neg h5]
                  by_cases h24 : main = "G24".toList
                  · rw [if_pos h24]
                    exact move_to_position_mode s _ _ _
                  · rw [if_neg h24]
  · unfold execute_gcode
    split_ifs
    · exact Or.inl rfl
    · exact Or.inr rfl
  · unfold set_robot_state
    cases me <;> cases ea <;> rfl
  · unfold home_robot
    split_ifs <;> rfl
  · unfold run_viewer_tick
    split_ifs <;> rfl

/-- Per-axis target resolution, written from the spec's words (§4.4): a
supplied axis value is used literally in absolute mode and added to the
current value in relative mode; an axis without a supplied key keeps its
current value unchanged.  Compared below with `execute_movement` from the
source. -/
def resolve_axis (mode : CoordMode) (cur : ℚ) (arg : Option ℚ) : ℚ :=
  match arg with
  | none => cur
  | some a =>
    match mode with
    | .absolute => a
    | .relative => cur + a

/-- In absolute mode the source's `x if x is not None else current` agrees
with the spec-side resolver. -/
lemma resolve_axis_absolute (cur : ℚ) (arg : Option ℚ) :
    arg.getD cur = resolve_axis .absolute cur arg := by
  cases arg <;> rfl

/-- In relative mode the source's `current + (x if x is not None else 0)`
agrees with the spec-side resolver. -/
lemma resolve_axis_relative (cur : ℚ) (arg : Option ℚ) :
    cur + arg.getD 0 = resolve_axis .relative cur arg := by
  cases arg
  · simp [resolve_axis]
  · rfl

/-- A viewer state with the motors enabled, `currentPosition = (1, 2, 3)` and
relative coordinate mode. -/
def c6RelState : RState :=
  { initState with motors_enabled := true, current_position := ⟨1, 2, 3⟩, coordinate_mode := .relative }

/-- A viewer state with the motors enabled, `currentPosition = (1, 2, 3)` and
absolute coordinate mode. -/
def c6AbsState : RState :=
  { initState with motors_enabled := true, current_position := ⟨1, 2, 3⟩, coordinate_mode := .absolute }

/-- C6: a `G0`/`G1` movement resolves its target per axis — a supplied key is
used literally in absolute mode and added to the current position in relative
mode, and axes without a supplied key keep their current value.  In
particular, from `currentPosition = (1, 2, 3)`, the command `"G1 X2"`
resolves (and records, both as the commanded position and as the animation
target) `(3, 2, 3)` in relative mode and `(2, 2, 3)` in absolute mode. -/
theorem C6_movement_resolution (s : RState) (params : List (Char × ℚ)) :
    (execute_movement s params).current_position
      = ⟨resolve_axis s.coordinate_mode s.current_position.x (dictGet params 'X'),
         resolve_axis s.coordinate_mode s.current_position.y (dictGet params 'Y'),
         resolve_axis s.coordinate_mode s.current_position.z (dictGet params 'Z')⟩ ∧
    (execute_gcode_command
        c6RelState ("G1 X2".toList)).current_position
      = ⟨3, 2, 3⟩ ∧
    (execute_gcode_command
        c6RelState ("G1 X2".toList)).target_position
      = ⟨3, 2, 3⟩ ∧
    (execute_gcode_command
        c6AbsState ("G1 X2".toList)).current_position
      = ⟨2, 2, 3⟩ ∧
    (execute_gcode_command
        c6AbsState ("G1 X2".toList)).target_position
      = ⟨2, 2, 3⟩ := by
  have hgen : ∀ (t : RState) (ps : List (Char × ℚ)), (execute_movement t ps).current_position
      = ⟨resolve_axis t.coordinate_mode t.current_position.x (dictGet ps 'X'),
         resolve_axis t.coordinate_mode t.current_position.y (dictGet ps 'Y'),
         resolve_axis t.coordinate_mode t.current_position.z (dictGet ps 'Z')⟩ := by
    intro t ps
    cases hm : t.coordinate_mode
    · simp only [execute_movement, move_to_position, hm]
      rw [resolve_axis_absolute, resolve_axis_absolute, resolve_axis_absolute]
    · simp only [execute_movement, move_to_position, hm]
      rw [resolve_axis_relative, resolve_axis_relative, resolve_axis_relative]
  have htar : ∀ (t : RState) (ps : List (Char × ℚ)), t.motors_enabled = true →
      (execute_movement t ps).target_position = (execute_movement t ps).current_position := by
    intro t ps hm
    cases hmode : t.coordinate_mode <;>
      simp [execute_movement, move_to_position, update_position, hmode, hm]
  have hrel : execute_gcode_command c6RelState ("G1 X2".toList)
      = execute_movement c6RelState [('X', (2:ℚ))] := rfl
  have habs : execute_gcode_command c6AbsState ("G1 X2".toList)
      = execute_movement c6AbsState [('X', (2:ℚ))] := rfl
  have hgetx : dictGet [('X', (2:ℚ))] 'X' = some 2 := rfl
  have hgety : dictGet [('X', (2:ℚ))] 'Y' = none := rfl
  have hgetz : dictGet [('X', (2:ℚ))] 'Z' = none := rfl
  have hrelcur : (execute_movement c6RelState [('X', (2:ℚ))]).current_position = ⟨3, 2, 3⟩ := by
    rw [hgen c6RelState [('X', (2:ℚ))], hgetx, hgety, hgetz]
    rw [show c6RelState.coordinate_mode = CoordMode.relative from rfl]
    rw [show c6RelState.current_position = ⟨1, 2, 3⟩ from rfl]
    simp only [resolve_axis, Vec3Q.mk.injEq]
    norm_num
  have habscur : (execute_movement c6AbsState [('X', (2:ℚ))]).current_position = ⟨2, 2, 3⟩ := by
    rw [hgen c6AbsState [('X', (2:ℚ))], hgetx, hgety, hgetz]
    rw [show c6AbsState.coordinate_mode = CoordMode.absolute from rfl]
    rw [show c6AbsState.current_position = ⟨1, 2, 3⟩ from rfl]
    simp only [resolve_axis]
  refine ⟨hgen s params, ?_, ?_, ?_, ?_⟩
  · rw [hrel, hrelcur]
  · rw [hrel, htar c6RelState [('X', (2:ℚ))] rfl, hrelcur]
  · rw [habs, habscur]
  · rw [habs, htar c6AbsState [('X', (2:ℚ))] rfl, habscur]

/-- Structure eta for the combined system state. -/
lemma Sys_eq_mk (σ : Sys) : σ = ⟨σ.st, σ.ph⟩ := rfl

/-- A render-loop frame never changes the executor thread's control
position. -/
lemma sysStep_tick_ph (σ : Sys) (dt : ℚ) : (sysStep σ (.tick dt)).ph = σ.ph := rfl

/-- A cancellation request never changes the executor thread's control
position: it only clears the flag, which is read elsewhere. -/
lemma sysStep_cancel_ph (σ : Sys) : (sysStep σ .cancel).ph = σ.ph := rfl

/-- From the movement wait loop the executor either keeps polling or moves to
the inter-command pause; in particular it cannot halt there, whatever the
value of the cancel flag. -/
lemma sysStep_waiting_ph (st : RState) (i : Nat) :
    (sysStep ⟨st, .waiting i⟩ .execStep).ph = .waiting i ∨
    (sysStep ⟨st, .waiting i⟩ .execStep).ph = .pausing i := by
  by_cases h : st.animation_progress < 1
  · exact Or.inl (by simp [sysStep, h])
  · exact Or.inr (by simp [sysStep, h])

/-- From the inter-command pause the executor always proceeds to the next
command boundary, whatever the value of the cancel flag. -/
lemma sysStep_pausing_ph (st : RState) (i : Nat) :
    (sysStep ⟨st, .pausing i⟩ .execStep).ph = .dispatch (i + 1) := rfl

/-- The system state after enabling the motors, submitting a two-command
program, letting the executor start the first movement, and requesting
cancellation while that movement is in flight. -/
def c9CancelledSys : Sys :=
  sysRun initSys
    [Ev.setMotors true, Ev.submit ["G1 X10".toList, "G1 X20".toList],
     Ev.execStep, Ev.cancel]

/-- C9 fails as stated: the cancel flag is read only at command boundaries,
not on every tick, so more than one tick can elapse between a cancellation
request and the halt of dispatch.  In `c9CancelledSys` the cancellation has
been requested (`is_executing_gcode = false`) while the first movement is
being waited on, yet after two further ticks of the render loop (with the
executor polling in between) dispatch has still not halted. -/
theorem C9_counterexample :
    c9CancelledSys.st.is_executing_gcode = false ∧
    c9CancelledSys.ph = Phase.waiting 0 ∧
    ((sysRun c9CancelledSys
        [Ev.execStep, Ev.tick (1/2), Ev.execStep, Ev.tick (1/2)]).ph ≠ Phase.halted) := by
  refine ⟨rfl, rfl, ?_⟩
  have h0 : c9CancelledSys.ph = Phase.waiting 0 := rfl
  set σ1 := sysStep c9CancelledSys Ev.execStep with hσ1
  have h1 : σ1.ph = Phase.waiting 0 ∨ σ1.ph = Phase.pausing 0 := by
    rw [hσ1, show c9CancelledSys = ⟨c9CancelledSys.st, Phase.waiting 0⟩ from rfl]
    exact sysStep_waiting_ph c9CancelledSys.st 0
  set σ2 := sysStep σ1 (Ev.tick (1/2)) with hσ2
  have h2 : σ2.ph = σ1.ph := sysStep_tick_ph σ1 (1/2)
  set σ3 := sysStep σ2 Ev.execStep with hσ3
  have h3 : σ3.ph = Phase.waiting 0 ∨ σ3.ph = Phase.pausing 0 ∨ σ3.ph = Phase.dispatch 1 := by
    rcases h1 with h | h
    · rw [hσ3, show σ2 = ⟨σ2.st, Phase.waiting 0⟩ from (Sys_eq_mk σ2).trans (by rw [h2.trans h])]
      rcases sysStep_waiting_ph σ2.st 0 with h' | h'
      · exact Or.inl h'
      · exact Or.inr (Or.inl h')
    · rw [hσ3, show σ2 = ⟨σ2.st, Phase.pausing 0⟩ from (Sys_eq_mk σ2).trans (by rw [h2.trans h])]
      exact Or.inr (Or.inr (sysStep_pausing_ph σ2.st 0))
  have h4 : (sysStep σ3 (Ev.tick (1/2))).ph = σ3.ph := sysStep_tick_ph σ3 (1/2)
  show (sysStep σ3 (Ev.tick (1/2))).ph ≠ Phase.halted
  rw [h4]
  rcases h3 with h | h | h <;> rw [h] <;> simp

/-- C9 (amended): cancellation is observed only at command boundaries.  The
movement wait loop polls only `animation_progress` and ignores the cancel
flag — with the flag already cleared it still either keeps waiting or ends
the wait according to the animation alone — and once the executor reaches
the next command boundary with the flag cleared it halts dispatch without
executing another command. -/
theorem C9_cancel_checked_at_boundaries (st : RState) (i : Nat)
    (hflag : st.is_executing_gcode = false) :
    (sysStep ⟨st, Phase.waiting i⟩ Ev.execStep
      = if st.animation_progress < 1 then ⟨st, Phase.waiting i⟩ else ⟨st, Phase.pausing i⟩) ∧
    (sysStep ⟨st, Phase.dispatch i⟩ Ev.execStep
      = ⟨{ st with is_executing_gcode := false }, Phase.halted⟩) := by
  constructor
  · by_cases h : st.animation_progress < 1
    · rw [if_pos h]
      simp [sysStep, h]
    · rw [if_neg h]
      simp [sysStep, h]
  · cases hq : st.gcode_queue[i]? <;> simp [sysStep, hq, hflag]

/-- Witness for `C9_cancel_checked_at_boundaries`: the fresh viewer state has
the cancel flag cleared; at a command boundary the executor halts at once,
and the wait step is governed by the animation progress alone. -/
theorem C9_cancel_checked_at_boundaries_witness :
    (sysStep ⟨initState, Phase.waiting 0⟩ Ev.execStep
      = if initState.animation_progress < 1 then ⟨initState, Phase.waiting 0⟩
        else ⟨initState, Phase.pausing 0⟩) ∧
    (sysStep ⟨initState, Phase.dispatch 0⟩ Ev.execStep
      = ⟨{ initState with is_executing_gcode := false }, Phase.halted⟩) :=
  C9_cancel_checked_at_boundaries initState 0 rfl

/-- A semicolon is not Python whitespace. -/
lemma pyWs_semi : pyWs ';' = false := rfl

/-- Every element of a list is whitespace exactly when every element left
after dropping a whitespace prefix is. -/
lemma all_dropWhile_iff (p : Char → Bool) (l : List Char) :
    ((l.dropWhile p).all p = true) ↔ (l.all p = true) := by
  simp only [List.all_eq_true]
  constructor
  · intro h x hx
    rw [← List.takeWhile_append_dropWhile (p := p) (l := l)] at hx
    rcases List.mem_append.mp hx with h1 | h2
    · exact List.mem_takeWhile_imp h1
    · exact h x h2
  · intro h x hx
    exact h x ((List.dropWhile_sublist (p := p) (l := l)).subset hx)

/-- Dropping a prefix swallows the whole list exactly when every element
satisfies the predicate. -/
lemma dropWhile_eq_nil_iff_all (p : Char → Bool) (l : List Char) :
    l.dropWhile p = [] ↔ l.all p = true := by
  induction l with
  | nil => simp
  | cons c cs ih =>
    by_cases h : p c
    · simp [List.dropWhile_cons, h, ih]
    · simp [List.dropWhile_cons, h]

/-- `strip` yields the empty list exactly on all-whitespace input — the
Python `if not raw` test detects exactly the blank lines. -/
lemma strip_eq_nil_iff (l : List Char) : strip l = [] ↔ l.all pyWs = true := by
  unfold strip
  rw [List.reverse_eq_nil_iff, dropWhile_eq_nil_iff_all]
  rw [show ((l.dropWhile pyWs).reverse.all pyWs = true) ↔ ((l.dropWhile pyWs).all pyWs = true) by
        simp [List.all_eq_true]]
  exact all_dropWhile_iff pyWs l

/-- The head surviving a `dropWhile` falsifies the predicate. -/
lemma dropWhile_head_false (p : Char → Bool) :
    ∀ (l : List Char) (c : Char) (t : List Char), l.dropWhile p = c :: t → p c = false := by
  intro l
  induction l with
  | nil => intro c t h; simp at h
  | cons a as ih =>
    intro c t h
    by_cases ha : p a
    · rw [List.dropWhile_cons, if_pos ha] at h
      exact ih c t h
    · rw [List.dropWhile_cons, if_neg ha] at h
      cases h
      exact Bool.eq_false_iff.mpr ha

/-- An element falsifying the predicate survives `dropWhile`. -/
lemma mem_dropWhile_of_not_p (p : Char → Bool) (a : Char) (ha : p a = false) (l : List Char) :
    a ∈ l.dropWhile p ↔ a ∈ l := by
  constructor
  · exact fun h => (List.dropWhile_sublist (p := p) (l := l)).subset h
  · intro h
    rw [← List.takeWhile_append_dropWhile (p := p) (l := l)] at h
    rcases List.mem_append.mp h with h1 | h2
    · exact absurd (List.mem_takeWhile_imp h1) (by simp [ha])
    · exact h2

/-- `strip` preserves membership of non-whitespace characters. -/
lemma mem_strip_iff (a : Char) (ha : pyWs a = false) (l : List Char) :
    a ∈ strip l ↔ a ∈ l := by
  unfold strip
  rw [List.mem_reverse, mem_dropWhile_of_not_p pyWs a ha, List.mem_reverse,
      mem_dropWhile_of_not_p pyWs a ha]

/-- A nonempty `strip` result contains a non-whitespace character. -/
lemma strip_not_all_ws (l : List Char) (h : strip l ≠ []) : ¬ (strip l).all pyWs = true := by
  intro hall
  set m := (l.dropWhile pyWs).reverse.dropWhile pyWs with hm
  have hmne : m ≠ [] := fun hnil => h (by unfold strip; rw [← hm, hnil]; rfl)
  obtain ⟨c, t, hct⟩ : ∃ c t, m = c :: t := by
    cases hme : m with
    | nil => exact absurd hme hmne
    | cons c t => exact ⟨c, t, rfl⟩
  have hc : pyWs c = false := dropWhile_head_false pyWs _ c t (hm ▸ hct)
  have hcm : c ∈ strip l := by
    unfold strip
    rw [← hm, hct]
    simp
  rw [List.all_eq_true] at hall
  have := hall c hcm
  rw [hc] at this
  exact Bool.false_ne_true this

/-- `flushWord` produces the empty accumulator only from empty inputs. -/
lemma flushWord_eq_nil_iff (cur : List Char) (acc : List (List Char)) :
    flushWord cur acc = [] ↔ (cur = [] ∧ acc = []) := by
  unfold flushWord
  cases cur <;> simp

/-- Step equation of `wordsGo`. -/
lemma wordsGo_cons (c : Char) (cs cur : List Char) (acc : List (List Char)) :
    wordsGo (c :: cs) cur acc
      = if pyWs c then wordsGo cs [] (flushWord cur acc) else wordsGo cs (c :: cur) acc := rfl

/-- `wordsGo` returns no words exactly when everything in sight is
whitespace or empty. -/
lemma wordsGo_eq_nil_iff (l : List Char) :
    ∀ (cur : List Char) (acc : List (List Char)),
      wordsGo l cur acc = [] ↔ (l.all pyWs = true ∧ cur = [] ∧ acc = []) := by
  induction l with
  | nil =>
    intro cur acc
    simp [wordsGo, flushWord_eq_nil_iff]
  | cons c cs ih =>
    intro cur acc
    by_cases h : pyWs c
    · rw [wordsGo_cons, if_pos h, ih [] (flushWord cur acc)]
      simp [h, flushWord_eq_nil_iff, and_assoc]
    · rw [wordsGo_cons, if_neg h, ih (c :: cur) acc]
      simp [h]

/-- Python's `split()` yields no tokens exactly on all-whitespace input. -/
lemma words_eq_nil_iff (l : List Char) : words l = [] ↔ l.all pyWs = true := by
  unfold words
  rw [wordsGo_eq_nil_iff]
  simp

/-- Taking the pre-`;` part commutes with dropping leading whitespace. -/
lemma beforeSemi_dropWhile (l : List Char) :
    beforeSemi (l.dropWhile pyWs) = (beforeSemi l).dropWhile pyWs := by
  induction l with
  | nil => rfl
  | cons c cs ih =>
    by_cases h : pyWs c
    · have hc : ¬ c = ';' := fun hc => by rw [hc] at h; exact absurd h (by simp [pyWs_semi])
      rw [List.dropWhile_cons, if_pos h, ih]
      rw [show beforeSemi (c :: cs) = c :: beforeSemi cs from by
            unfold beforeSemi; rw [List.takeWhile_cons, if_pos (by simp [hc])]]
      rw [List.dropWhile_cons, if_pos h]
    · by_cases hc : c = ';'
      · subst hc
        rw [List.dropWhile_cons, if_neg h]
        rw [show beforeSemi (';' :: cs) = [] from by
              unfold beforeSemi; rw [List.takeWhile_cons, if_neg (by simp)]]
        rfl
      · rw [List.dropWhile_cons, if_neg h]
        rw [show beforeSemi (c :: cs) = c :: beforeSemi cs from by
              unfold beforeSemi; rw [List.takeWhile_cons, if_pos (by simp [hc])]]
        rw [List.dropWhile_cons, if_neg h]

/-- An appended tail after the first `;` never shows up in the pre-`;`
part. -/
lemma beforeSemi_append_of_mem (a b : List Char) (h : ';' ∈ a) :
    beforeSemi (a ++ b) = beforeSemi a := by
  induction a with
  | nil => simp at h
  | cons c cs ih =>
    by_cases hc : c = ';'
    · subst hc
      rw [show beforeSemi ((';' :: cs) ++ b) = [] from by
            unfold beforeSemi; rw [List.cons_append, List.takeWhile_cons, if_neg (by simp)]]
      rw [show beforeSemi (';' :: cs) = [] from by
            unfold beforeSemi; rw [List.takeWhile_cons, if_neg (by simp)]]
    · have hmem : ';' ∈ cs := by
        rcases List.mem_cons.mp h with h1 | h2
        · exact absurd h1.symm hc
        · exact h2
      rw [show beforeSemi ((c :: cs) ++ b) = c :: beforeSemi (cs ++ b) from by
            unfold beforeSemi; rw [List.cons_append, List.takeWhile_cons, if_pos (by simp [hc])]]
      rw [show beforeSemi (c :: cs) = c :: beforeSemi cs from by
            unfold beforeSemi; rw [List.takeWhile_cons, if_pos (by simp [hc])]]
      rw [ih hmem]

/-- Any list splits as its trailing-strip result followed by the removed
whitespace suffix. -/
lemma reverse_decomposition (p : Char → Bool) (m : List Char) :
    m = (m.reverse.dropWhile p).reverse ++ (m.reverse.takeWhile p).reverse := by
  have h := List.takeWhile_append_dropWhile (p := p) (l := m.reverse)
  have h2 := congrArg List.reverse h
  rw [List.reverse_append, List.reverse_reverse] at h2
  exact h2.symm

/-- When the line really contains a `;`, stripping it first only removes
leading whitespace from the pre-`;` part. -/
lemma beforeSemi_strip (l : List Char) (h : ';' ∈ l) :
    beforeSemi (strip l) = (beforeSemi l).dropWhile pyWs := by
  have hm0 : ';' ∈ l.dropWhile pyWs := (mem_dropWhile_of_not_p pyWs ';' pyWs_semi l).mpr h
  have hdecomp := reverse_decomposition pyWs (l.dropWhile pyWs)
  have hstrip : strip l = ((l.dropWhile pyWs).reverse.dropWhile pyWs).reverse := rfl
  have hsuffix : ∀ x ∈ ((l.dropWhile pyWs).reverse.takeWhile pyWs).reverse, pyWs x = true := by
    intro x hx
    rw [List.mem_reverse] at hx
    exact List.mem_takeWhile_imp hx
  have hmem_strip : ';' ∈ strip l := by
    rw [hstrip]
    rcases List.mem_append.mp (hdecomp ▸ hm0) with h1 | h2
    · exact h1
    · exact absurd (hsuffix ';' h2) (by simp [pyWs_semi])
  calc beforeSemi (strip l)
      = beforeSemi (strip l ++ ((l.dropWhile pyWs).reverse.takeWhile pyWs).reverse) := by
        rw [beforeSemi_append_of_mem _ _ hmem_strip]
    _ = beforeSemi (l.dropWhile pyWs) := by rw [hstrip, ← hdecomp]
    _ = (beforeSemi l).dropWhile pyWs := beforeSemi_dropWhile l

/-- Without a `;` the pre-`;` part is the whole line. -/
lemma beforeSemi_eq_self (l : List Char) (h : ';' ∉ l) : beforeSemi l = l := by
  induction l with
  | nil => rfl
  | cons c cs ih =>
    have hc : ¬ c = ';' := fun hc => h (by rw [hc]; exact List.mem_cons_self _ _)
    have hcs : ';' ∉ cs := fun hm => h (List.mem_cons_of_mem c hm)
    rw [show beforeSemi (c :: cs) = c :: beforeSemi cs from by
          unfold beforeSemi; rw [List.takeWhile_cons, if_pos (by simp [hc])]]
    rw [ih hcs]

/-- Splitting an already-stripped nonempty text yields at least one token. -/
lemma words_of_strip_ne_nil (l : List Char) (h : strip l ≠ []) :
    words (strip l) ≠ [] := by
  intro hw
  exact strip_not_all_ws l h ((words_eq_nil_iff _).mp hw)

/-- `from_line` returns `none` exactly when the line strips to nothing, or
its pre-comment part strips to nothing; in every other case the `words`
split is nonempty and a command is produced. -/
lemma from_line_eq_none_iff (line : List Char) :
    from_line line = none ↔
      (strip line = [] ∨ (';' ∈ strip line ∧ strip (beforeSemi (strip line)) = [])) := by
  unfold from_line
  by_cases h0 : strip line = []
  · simp [h0]
  · rw [if_neg h0]
    by_cases hsemi : ';' ∈ strip line
    · by_cases hr1 : strip (beforeSemi (strip line)) = []
      · simp [hsemi, hr1, h0]
      · have hww := words_of_strip_ne_nil (beforeSemi (strip line)) hr1
        cases hw : words (strip (beforeSemi (strip line))) with
        | nil => exact absurd hw hww
        | cons tok rest => simp [hsemi, hr1, h0, hw]
    · have hww := words_of_strip_ne_nil line h0
      cases hw : words (strip line) with
      | nil => exact absurd hw hww
      | cons tok rest => simp [hsemi, h0, hw]

/-- C5: the line parser is total by construction (the only Python exception
source, `float()` on a malformed argument, is caught and modelled by the
`Option`-valued `pyFloat`, which only drops the token), and it returns
`none` exactly when the line is blank or comment-only — every character
before the first `;` is whitespace; otherwise it returns a command, at worst
with zero arguments. -/
theorem C5_parse_line_total (line : List Char) :
    (from_line line = none ↔ blankOrCommentOnly line = true) := by
  rw [from_line_eq_none_iff]
  unfold blankOrCommentOnly
  by_cases hsemi : ';' ∈ line
  · have hsemi' : ';' ∈ strip line := (mem_strip_iff ';' pyWs_semi line).mpr hsemi
    have hnotall : ¬ line.all pyWs = true := by
      intro hall
      rw [List.all_eq_true] at hall
      have := hall ';' hsemi
      rw [pyWs_semi] at this
      exact Bool.false_ne_true this
    have h0 : strip line ≠ [] := fun h => hnotall ((strip_eq_nil_iff line).mp h)
    rw [beforeSemi_strip line hsemi]
    constructor
    · intro h
      rcases h with h | ⟨_, h⟩
      · exact absurd h h0
      · rw [strip_eq_nil_iff] at h
        exact (all_dropWhile_iff pyWs (beforeSemi line)).mp h
    · intro h
      refine Or.inr ⟨hsemi', ?_⟩
      rw [strip_eq_nil_iff]
      exact (all_dropWhile_iff pyWs (beforeSemi line)).mpr h
  · have hsemi' : ';' ∉ strip line := fun h => hsemi ((mem_strip_iff ';' pyWs_semi line).mp h)
    rw [beforeSemi_eq_self line hsemi]
    rw [← strip_eq_nil_iff]
    constructor
    · intro h
      rcases h with h | ⟨h, _⟩
      · exact h
      · exact absurd h hsemi'
    · exact Or.inl

/-- Python's `math.atan2 y x`, modelled as the argument of the complex number
`x + y*i`: it agrees with `math.atan2` on all of ℝ² (both give `0` at the
origin and `π` on the negative real axis). -/
noncomputable def atan2 (y x : ℝ) : ℝ := Complex.arg ⟨x, y⟩

/-- Polar identity: the radius times the cosine of `atan2 y x` recovers `x`. -/
lemma sqrt_mul_cos_atan2 (y x : ℝ) :
    Real.sqrt (x * x + y * y) * Real.cos (atan2 y x) = x := by
  by_cases hz : (⟨x, y⟩ : ℂ) = 0
  · have hx : x = 0 := congrArg Complex.re hz
    have hy : y = 0 := congrArg Complex.im hz
    subst hx; subst hy
    simp [atan2]
  · have habs : Complex.abs ⟨x, y⟩ = Real.sqrt (x * x + y * y) := by
      rw [Complex.abs_apply, Complex.normSq_mk]
    have hne : Real.sqrt (x * x + y * y) ≠ 0 := by
      rw [← habs]
      exact Complex.abs.ne_zero hz
    rw [atan2, Complex.cos_arg hz, show ((⟨x, y⟩ : ℂ)).re = x from rfl, habs]
    field_simp

/-- Polar identity: the radius times the sine of `atan2 y x` recovers `y`. -/
lemma sqrt_mul_sin_atan2 (y x : ℝ) :
    Real.sqrt (x * x + y * y) * Real.sin (atan2 y x) = y := by
  by_cases hz : (⟨x, y⟩ : ℂ) = 0
  · have hx : x = 0 := congrArg Complex.re hz
    have hy : y = 0 := congrArg Complex.im hz
    subst hx; subst hy
    simp [atan2]
  · have habs : Complex.abs ⟨x, y⟩ = Real.sqrt (x * x + y * y) := by
      rw [Complex.abs_apply, Complex.normSq_mk]
    have hne : Real.sqrt (x * x + y * y) ≠ 0 := by
      rw [← habs]
      exact Complex.abs.ne_zero hz
    rw [atan2, Complex.sin_arg, show ((⟨x, y⟩ : ℂ)).im = y from rfl, habs]
    field_simp

/-- The float-error guard of `_calculate_arm_angles`:
`max(-1, min(1, c))`. -/
noncomputable def clamp1 (c : ℝ) : ℝ := max (-1) (min 1 c)

/-- The clamp is the identity on `[-1, 1]`. -/
lemma clamp1_of_mem (c : ℝ) (h1 : -1 ≤ c) (h2 : c ≤ 1) : clamp1 c = c := by
  unfold clamp1
  rw [min_eq_right h2, max_eq_right h1]

/-- Core two-link identity: when the planar target `(h, v)` at distance `D`
from the shoulder satisfies the triangle conditions `|L - U| ≤ D ≤ L + U`
and `D > 0`, the law-of-cosines angles computed exactly as in
`_calculate_arm_angles` (lower angle `atan2(v,h) - arccos(cosLower)`,
relative upper angle `180° - arccos(cosUpper)`, both cosines clamped) drive
the two-link chain back onto `(h, v)` exactly. -/
lemma planar_fk_reproduces (L U h v D : ℝ) (hL : 0 < L) (hU : 0 < U)
    (hD : D = Real.sqrt (h * h + v * v)) (hD0 : 0 < D)
    (hDle : D ≤ L + U) (hDge : |L - U| ≤ D) :
    (L * Real.cos (atan2 v h - Real.arccos (clamp1 ((L * L + D * D - U * U) / (2 * L * D))))
      + U * Real.cos ((atan2 v h - Real.arccos (clamp1 ((L * L + D * D - U * U) / (2 * L * D))))
          + (Real.pi - Real.arccos (clamp1 ((L * L + U * U - D * D) / (2 * L * U))))) = h)
    ∧ (L * Real.sin (atan2 v h - Real.arccos (clamp1 ((L * L + D * D - U * U) / (2 * L * D))))
      + U * Real.sin ((atan2 v h - Real.arccos (clamp1 ((L * L + D * D - U * U) / (2 * L * D))))
          + (Real.pi - Real.arccos (clamp1 ((L * L + U * U - D * D) / (2 * L * U))))) = v) := by
  obtain ⟨hLU1, hLU2⟩ := abs_le.mp hDge
  have h2LD : (0:ℝ) < 2 * L * D := by positivity
  have h2LU : (0:ℝ) < 2 * L * U := by positivity
  set cl := (L * L + D * D - U * U) / (2 * L * D) with hcl
  set cu := (L * L + U * U - D * D) / (2 * L * U) with hcu
  have hcl1 : -1 ≤ cl := by
    rw [hcl, le_div_iff₀ h2LD]
    nlinarith [mul_nonneg (by linarith : (0:ℝ) ≤ L + D - U) (by linarith : (0:ℝ) ≤ L + D + U)]
  have hcl2 : cl ≤ 1 := by
    rw [hcl, div_le_one h2LD]
    nlinarith [mul_nonneg (by linarith : (0:ℝ) ≤ D + U - L) (by linarith : (0:ℝ) ≤ L + U - D)]
  have hcu1 : -1 ≤ cu := by
    rw [hcu, le_div_iff₀ h2LU]
    nlinarith [mul_nonneg (by linarith : (0:ℝ) ≤ L + U - D) (by linarith : (0:ℝ) ≤ L + U + D)]
  have hcu2 : cu ≤ 1 := by
    rw [hcu, div_le_one h2LU]
    nlinarith [sq_le_sq' hLU1 hLU2]
  have hclampl : clamp1 cl = cl := clamp1_of_mem cl hcl1 hcl2
  have hclampu : clamp1 cu = cu := clamp1_of_mem cu hcu1 hcu2
  rw [hclampl, hclampu]
  set β := Real.arccos cl with hβ
  set φ := Real.arccos cu with hφ
  set θ := atan2 v h with hθ
  have hcosβ : Real.cos β = cl := Real.cos_arccos hcl1 hcl2
  have hsinβ : Real.sin β = Real.sqrt (1 - cl ^ 2) := Real.sin_arccos cl
  have hcosu : Real.cos (Real.pi - φ) = -cu := by
    rw [Real.cos_pi_sub, hφ, Real.cos_arccos hcu1 hcu2]
  have hsinu : Real.sin (Real.pi - φ) = Real.sqrt (1 - cu ^ 2) := by
    rw [Real.sin_pi_sub, hφ, Real.sin_arccos]
  have hDne : D ≠ 0 := ne_of_gt hD0
  have hLne : L ≠ 0 := ne_of_gt hL
  have hUne : U ≠ 0 := ne_of_gt hU
  have hA : L + U * Real.cos (Real.pi - φ) = D * Real.cos β := by
    rw [hcosu, hcosβ, hcl, hcu]
    field_simp
    ring
  have hsq : U ^ 2 * (1 - cu ^ 2) = D ^ 2 * (1 - cl ^ 2) := by
    rw [hcl, hcu]
    field_simp
    ring
  have hB : U * Real.sin (Real.pi - φ) = D * Real.sin β := by
    rw [hsinu, hsinβ]
    rw [show U * Real.sqrt (1 - cu ^ 2) = Real.sqrt (U ^ 2 * (1 - cu ^ 2)) from by
          rw [Real.sqrt_mul (sq_nonneg U), Real.sqrt_sq hU.le]]
    rw [hsq, Real.sqrt_mul (sq_nonneg D), Real.sqrt_sq hD0.le]
  have hDcos : D * Real.cos θ = h := by
    rw [hθ, hD]
    exact sqrt_mul_cos_atan2 v h
  have hDsin : D * Real.sin θ = v := by
    rw [hθ, hD]
    exact sqrt_mul_sin_atan2 v h
  constructor
  · have expand : L * Real.cos (θ - β) + U * Real.cos ((θ - β) + (Real.pi - φ))
        = D * Real.cos ((θ - β) + β) := by
      rw [Real.cos_add (θ - β) (Real.pi - φ), Real.cos_add (θ - β) β]
      linear_combination Real.cos (θ - β) * hA - Real.sin (θ - β) * hB
    rw [expand, show (θ - β) + β = θ from by ring, hDcos]
  · have expand : L * Real.sin (θ - β) + U * Real.sin ((θ - β) + (Real.pi - φ))
        = D * Real.sin ((θ - β) + β) := by
      rw [Real.sin_add (θ - β) (Real.pi - φ), Real.sin_add (θ - β) β]
      linear_combination Real.sin (θ - β) * hA + Real.cos (θ - β) * hB
    rw [expand, show (θ - β) + β = θ from by ring, hDsin]

/-- A three-component position with real coordinates, for the solver. -/
structure Vec3R where
  x : ℝ
  y : ℝ
  z : ℝ

/-- The dictionary returned by `_calculate_arm_angles`:
`rotation`, `lower_arm`, `upper_arm`, all in degrees. -/
structure ArmAngles where
  rotation : ℝ
  lower_arm : ℝ
  upper_arm : ℝ

/-- `math.degrees`. -/
noncomputable def deg (r : ℝ) : ℝ := r * 180 / Real.pi
/-- `math.radians`. -/
noncomputable def rad (d : ℝ) : ℝ := d * Real.pi / 180

/-- Radians-of-degrees round-trips exactly over ℝ. -/
lemma rad_deg (r : ℝ) : rad (deg r) = r := by
  unfold rad deg
  field_simp

/-- Degree-to-radian conversion is additive. -/
lemma rad_sub (a b : ℝ) : rad (a - b) = rad a - rad b := by
  unfold rad
  ring

/-- Half-turn conversion. -/
lemma rad_180 : rad 180 = Real.pi := by
  unfold rad
  ring

/-- `horizontal_dist` of `_calculate_arm_angles` (line 964): distance from
the vertical axis in the XZ plane. -/
noncomputable def horizontal_dist (p : Vec3R) : ℝ := Real.sqrt (p.x * p.x + p.z * p.z)

/-- `vertical_dist` of `_calculate_arm_angles` (lines 967-969): height above
the base, clamped to zero for positions below the base plane. -/
noncomputable def vertical_dist (bh : ℝ) (p : Vec3R) : ℝ :=
  if p.y - bh < 0 then 0 else p.y - bh

/-- `target_dist` of `_calculate_arm_angles` (line 972). -/
noncomputable def target_dist (bh : ℝ) (p : Vec3R) : ℝ :=
  Real.sqrt (horizontal_dist p * horizontal_dist p + vertical_dist bh p * vertical_dist bh p)

/-- `_calculate_arm_angles` (robot_3d_viewer.py, lines 952-1005): base
rotation by `atan2(x, z)` (the source's redundant `if z != 0 or x != 0`
guard is kept; `math.atan2(0, 0) = 0` anyway), reachability clamp scaling
`horizontal`/`vertical` by `maxReach / targetDist`, then the law-of-cosines
angles with both cosines clamped to `[-1, 1]`.  The `try/except
(ValueError, ZeroDivisionError)` of the source is modelled exactly by the
zero test on the two denominators: with the cosines clamped, `acos` can
never raise, so a `ZeroDivisionError` from a zero denominator is the only
exception path, and it yields the documented fallback `(45°, 90°)`. -/
noncomputable def calculate_arm_angles (L U bh : ℝ) (p : Vec3R) : ArmAngles :=
  let rotation := if p.z ≠ 0 ∨ p.x ≠ 0 then deg (atan2 p.x p.z) else 0
  let hd0 := horizontal_dist p
  let vd0 := vertical_dist bh p
  let td0 := target_dist bh p
  let maxReach := L + U
  let scale := maxReach / td0
  let hd := if maxReach < td0 then hd0 * scale else hd0
  let vd := if maxReach < td0 then vd0 * scale else vd0
  let td := if maxReach < td0 then maxReach else td0
  if 2 * L * td = 0 ∨ 2 * L * U = 0 then
    { rotation := rotation, lower_arm := 45, upper_arm := 90 }
  else
    { rotation := rotation
    , lower_arm := deg (atan2 vd hd)
        - deg (Real.arccos (clamp1 ((L * L + td * td - U * U) / (2 * L * td))))
    , upper_arm := 180 - deg (Real.arccos (clamp1 ((L * L + U * U - td * td) / (2 * L * U)))) }

/-- Written from the spec's words (§4.2, the two-link arm model): the
forward kinematics of a joint pose.  The shoulder sits at height `bh`; the
lower link of length `L` leaves it at elevation `lowerArmDeg` from the
horizontal; the upper link of length `U` continues at the relative bend
`upperArmDeg`; the whole plane is rotated about the vertical axis by
`baseRotationDeg` (so that `x = planar * sin`, `z = planar * cos`, matching
`baseRotationDeg = atan2(x, z)`).  This is the specification-side measuring
stick the solver claims are checked against; the repository has no explicit
forward-kinematics function (the renderer realises it as a chain of GL
transforms). -/
noncomputable def forward_kinematics (L U bh : ℝ) (a : ArmAngles) : Vec3R :=
  { x := (L * Real.cos (rad a.lower_arm) + U * Real.cos (rad a.lower_arm + rad a.upper_arm))
           * Real.sin (rad a.rotation)
  , y := bh + (L * Real.sin (rad a.lower_arm) + U * Real.sin (rad a.lower_arm + rad a.upper_arm))
  , z := (L * Real.cos (rad a.lower_arm) + U * Real.cos (rad a.lower_arm + rad a.upper_arm))
           * Real.cos (rad a.rotation) }

/-- Euclidean distance between positions. -/
noncomputable def dist3 (p q : Vec3R) : ℝ :=
  Real.sqrt ((p.x - q.x) * (p.x - q.x) + (p.y - q.y) * (p.y - q.y) + (p.z - q.z) * (p.z - q.z))

/-- For targets at or above the base plane, the solver's distance is the
Euclidean distance from the shoulder pivot `(0, bh, 0)`. -/
lemma target_dist_eq (bh x y z : ℝ) (hy : bh ≤ y) :
    target_dist bh ⟨x, y, z⟩ = Real.sqrt (x * x + z * z + (y - bh) * (y - bh)) := by
  unfold target_dist vertical_dist horizontal_dist
  dsimp only
  rw [if_neg (by linarith : ¬ (y - bh < 0))]
  rw [Real.mul_self_sqrt (add_nonneg (mul_self_nonneg x) (mul_self_nonneg z))]

/-- Within reach and away from the degenerate origin, the solver takes its
main branch: no scaling, law-of-cosines angles on the raw distances. -/
lemma calculate_arm_angles_in_reach (L U bh : ℝ) (p : Vec3R) (hL : 0 < L) (hU : 0 < U)
    (hfar : ¬ (L + U < target_dist bh p)) (htd0 : 0 < target_dist bh p) :
    calculate_arm_angles L U bh p =
      { rotation := if p.z ≠ 0 ∨ p.x ≠ 0 then deg (atan2 p.x p.z) else 0
      , lower_arm := deg (atan2 (vertical_dist bh p) (horizontal_dist p))
          - deg (Real.arccos (clamp1 ((L * L + target_dist bh p * target_dist bh p - U * U)
              / (2 * L * target_dist bh p))))
      , upper_arm := 180 - deg (Real.arccos (clamp1 ((L * L + U * U
              - target_dist bh p * target_dist bh p) / (2 * L * U)))) } := by
  have hden : ¬ (2 * L * target_dist bh p = 0 ∨ 2 * L * U = 0) := by
    push_neg
    exact ⟨ne_of_gt (mul_pos (mul_pos two_pos hL) htd0), ne_of_gt (mul_pos (mul_pos two_pos hL) hU)⟩
  unfold calculate_arm_angles
  simp only [if_neg hfar]
  rw [if_neg hden]

/-- Beyond reach, the solver scales the horizontal and vertical components
by `maxReach / targetDist` and proceeds with `targetDist = maxReach`. -/
lemma calculate_arm_angles_beyond (L U bh : ℝ) (p : Vec3R) (hL : 0 < L) (hU : 0 < U)
    (hfar : L + U < target_dist bh p) :
    calculate_arm_angles L U bh p =
      { rotation := if p.z ≠ 0 ∨ p.x ≠ 0 then deg (atan2 p.x p.z) else 0
      , lower_arm := deg (atan2 (vertical_dist bh p * ((L + U) / target_dist bh p))
            (horizontal_dist p * ((L + U) / target_dist bh p)))
          - deg (Real.arccos (clamp1 ((L * L + (L + U) * (L + U) - U * U) / (2 * L * (L + U)))))
      , upper_arm := 180 - deg (Real.arccos (clamp1 ((L * L + U * U
              - (L + U) * (L + U)) / (2 * L * U)))) } := by
  have hden : ¬ (2 * L * (L + U) = 0 ∨ 2 * L * U = 0) := by
    push_neg
    exact ⟨ne_of_gt (mul_pos (mul_pos two_pos hL) (by linarith)),
           ne_of_gt (mul_pos (mul_pos two_pos hL) hU)⟩
  unfold calculate_arm_angles
  simp only [if_pos hfar]
  rw [if_neg hden]

/-- C7: the solver never raises — in this embedding it is a total function,
with the caught `ZeroDivisionError` modelled by the explicit zero test on
the denominators and `ValueError` impossible because both cosines are
clamped into the domain of `acos` — and in the degenerate case
`targetDist = 0` (with positive arm lengths) it returns the documented
fallback angles `lowerArmDeg = 45` and `upperArmDeg = 90`. -/
theorem C7_degenerate_fallback (L U bh : ℝ) (p : Vec3R) (hL : 0 < L) (hU : 0 < U)
    (htd : target_dist bh p = 0) :
    (calculate_arm_angles L U bh p).lower_arm = 45 ∧
    (calculate_arm_angles L U bh p).upper_arm = 90 := by
  have hfar : ¬ (L + U < target_dist bh p) := by
    rw [htd]
    linarith
  have hfar0 : ¬ (L + U < (0:ℝ)) := by linarith
  have hsolve : calculate_arm_angles L U bh p =
      { rotation := if p.z ≠ 0 ∨ p.x ≠ 0 then deg (atan2 p.x p.z) else 0
      , lower_arm := 45, upper_arm := 90 } := by
    unfold calculate_arm_angles
    simp only [htd, if_neg hfar0, mul_zero]
    simp
  rw [hsolve]
  exact ⟨rfl, rfl⟩

/-- C1 (amended): for targets at or above the base plane whose distance `d`
from the shoulder pivot `(0, baseHeight, 0)` satisfies
`0 < d`, `|L - U| ≤ d` and `d ≤ L + U`, the forward kinematics of the
solver's output reproduces the target exactly — in particular within the
claimed `1e-3`.  The restrictions are forced by the code: targets below the
base plane have their vertical component clamped to zero
(`C1_counterexample`), the zero-distance target takes the fallback angles,
and for `d < |L - U|` the cosine clamp fires. -/
theorem C1_within_reach_exact (L U bh x y z : ℝ) (hL : 0 < L) (hU : 0 < U)
    (hy : bh ≤ y)
    (hpos : 0 < x * x + z * z + (y - bh) * (y - bh))
    (hreach : Real.sqrt (x * x + z * z + (y - bh) * (y - bh)) ≤ L + U)
    (hmin : |L - U| ≤ Real.sqrt (x * x + z * z + (y - bh) * (y - bh))) :
    forward_kinematics L U bh (calculate_arm_angles L U bh ⟨x, y, z⟩) = ⟨x, y, z⟩ := by
  set d := Real.sqrt (x * x + z * z + (y - bh) * (y - bh)) with hd
  have htd : target_dist bh ⟨x, y, z⟩ = d := target_dist_eq bh x y z hy
  have htd0 : 0 < d := Real.sqrt_pos.mpr hpos
  have hfar : ¬ (L + U < target_dist bh ⟨x, y, z⟩) := by
    rw [htd]
    exact not_lt.mpr hreach
  have hvert : vertical_dist bh ⟨x, y, z⟩ = y - bh := by
    unfold vertical_dist
    dsimp only
    rw [if_neg (by linarith : ¬ (y - bh < 0))]
  have hhor : horizontal_dist ⟨x, y, z⟩ = Real.sqrt (x * x + z * z) := rfl
  have hDsqrt : d = Real.sqrt (Real.sqrt (x * x + z * z) * Real.sqrt (x * x + z * z)
      + (y - bh) * (y - bh)) := by
    rw [Real.mul_self_sqrt (add_nonneg (mul_self_nonneg x) (mul_self_nonneg z)), hd]
  have hplanar := planar_fk_reproduces L U (Real.sqrt (x * x + z * z)) (y - bh) d hL hU
    hDsqrt htd0 hreach hmin
  rw [calculate_arm_angles_in_reach L U bh ⟨x, y, z⟩ hL hU hfar (htd ▸ htd0)]
  unfold forward_kinematics
  dsimp only
  rw [htd, hvert, hhor]
  rw [rad_sub, rad_deg, rad_deg, rad_sub, rad_180, rad_deg]
  rw [hplanar.1, hplanar.2]
  simp only [Vec3R.mk.injEq]
  refine ⟨?_, by ring, ?_⟩
  · by_cases hrot : z ≠ 0 ∨ x ≠ 0
    · rw [if_pos hrot, rad_deg,
          show Real.sqrt (x * x + z * z) = Real.sqrt (z * z + x * x) from by rw [add_comm]]
      exact sqrt_mul_sin_atan2 x z
    · push_neg at hrot
      obtain ⟨hz, hx⟩ := hrot
      subst hz
      subst hx
      norm_num
  · by_cases hrot : z ≠ 0 ∨ x ≠ 0
    · rw [if_pos hrot, rad_deg,
          show Real.sqrt (x * x + z * z) = Real.sqrt (z * z + x * x) from by rw [add_comm]]
      exact sqrt_mul_cos_atan2 x z
    · push_neg at hrot
      obtain ⟨hz, hx⟩ := hrot
      subst hz
      subst hx
      norm_num

/-- C2 (amended): for targets at or above the base plane farther than
`L + U` from the shoulder pivot `(0, baseHeight, 0)`, the forward
kinematics of the solver's output lands exactly on the point
`pivot + ((L+U)/d) • (target - pivot)` — the projection of the target onto
the reachable sphere along the original direction — and its distance from
the pivot is exactly `L + U`.  The at-or-above restriction is forced by the
code's vertical clamp (`C2_counterexample`). -/
theorem C2_beyond_reach_clamped (L U bh x y z : ℝ) (hL : 0 < L) (hU : 0 < U)
    (hy : bh ≤ y)
    (hfar : L + U < Real.sqrt (x * x + z * z + (y - bh) * (y - bh))) :
    forward_kinematics L U bh (calculate_arm_angles L U bh ⟨x, y, z⟩)
      = ⟨(L + U) / Real.sqrt (x * x + z * z + (y - bh) * (y - bh)) * x,
         bh + (L + U) / Real.sqrt (x * x + z * z + (y - bh) * (y - bh)) * (y - bh),
         (L + U) / Real.sqrt (x * x + z * z + (y - bh) * (y - bh)) * z⟩ ∧
    dist3 (forward_kinematics L U bh (calculate_arm_angles L U bh ⟨x, y, z⟩)) ⟨0, bh, 0⟩
      = L + U := by
  have hsum : (0:ℝ) ≤ x * x + z * z + (y - bh) * (y - bh) :=
    add_nonneg (add_nonneg (mul_self_nonneg x) (mul_self_nonneg z)) (mul_self_nonneg (y - bh))
  set d := Real.sqrt (x * x + z * z + (y - bh) * (y - bh)) with hd
  have htd : target_dist bh ⟨x, y, z⟩ = d := target_dist_eq bh x y z hy
  have htd0 : 0 < d := lt_trans (by positivity) hfar
  have hdne : d ≠ 0 := ne_of_gt htd0
  have hfar' : L + U < target_dist bh ⟨x, y, z⟩ := by
    rw [htd]
    exact hfar
  have hvert : vertical_dist bh ⟨x, y, z⟩ = y - bh := by
    unfold vertical_dist
    dsimp only
    rw [if_neg (by linarith : ¬ (y - bh < 0))]
  have hhor : horizontal_dist ⟨x, y, z⟩ = Real.sqrt (x * x + z * z) := rfl
  have hHH : Real.sqrt (x * x + z * z) * Real.sqrt (x * x + z * z) = x * x + z * z :=
    Real.mul_self_sqrt (add_nonneg (mul_self_nonneg x) (mul_self_nonneg z))
  have hdd : x * x + z * z + (y - bh) * (y - bh) = d * d := by
    rw [hd, Real.mul_self_sqrt hsum]
  have hsd : (L + U) / d * d = L + U := div_mul_cancel₀ (L + U) hdne
  have hDeq : L + U = Real.sqrt
      ((Real.sqrt (x * x + z * z) * ((L + U) / d)) * (Real.sqrt (x * x + z * z) * ((L + U) / d))
        + ((y - bh) * ((L + U) / d)) * ((y - bh) * ((L + U) / d))) := by
    have hinner : (Real.sqrt (x * x + z * z) * ((L + U) / d))
          * (Real.sqrt (x * x + z * z) * ((L + U) / d))
        + ((y - bh) * ((L + U) / d)) * ((y - bh) * ((L + U) / d))
        = ((L + U) / d * d) * ((L + U) / d * d) := by
      have hexp : (Real.sqrt (x * x + z * z) * ((L + U) / d))
            * (Real.sqrt (x * x + z * z) * ((L + U) / d))
          + ((y - bh) * ((L + U) / d)) * ((y - bh) * ((L + U) / d))
          = (Real.sqrt (x * x + z * z) * Real.sqrt (x * x + z * z)
              + (y - bh) * (y - bh)) * (((L + U) / d) * ((L + U) / d)) := by
        ring
      rw [hexp, hHH]
      linear_combination (((L + U) / d) * ((L + U) / d)) * hdd
    rw [hinner, hsd, Real.sqrt_mul_self (by positivity : (0:ℝ) ≤ L + U)]
  have hplanar := planar_fk_reproduces L U (Real.sqrt (x * x + z * z) * ((L + U) / d))
    ((y - bh) * ((L + U) / d)) (L + U) hL hU hDeq (by positivity) (le_refl _)
    (abs_le.mpr ⟨by linarith, by linarith⟩)
  have hfk : forward_kinematics L U bh (calculate_arm_angles L U bh ⟨x, y, z⟩)
      = ⟨(L + U) / d * x, bh + (L + U) / d * (y - bh), (L + U) / d * z⟩ := by
    rw [calculate_arm_angles_beyond L U bh ⟨x, y, z⟩ hL hU hfar']
    unfold forward_kinematics
    dsimp only
    rw [htd, hvert, hhor]
    rw [rad_sub, rad_deg, rad_deg, rad_sub, rad_180, rad_deg]
    rw [hplanar.1, hplanar.2]
    simp only [Vec3R.mk.injEq]
    refine ⟨?_, by ring, ?_⟩
    · by_cases hrot : z ≠ 0 ∨ x ≠ 0
      · rw [if_pos hrot, rad_deg]
        have hpol := sqrt_mul_sin_atan2 x z
        rw [show Real.sqrt (z * z + x * x) = Real.sqrt (x * x + z * z) from by rw [add_comm]] at hpol
        calc Real.sqrt (x * x + z * z) * ((L + U) / d) * Real.sin (atan2 x z)
            = (L + U) / d * (Real.sqrt (x * x + z * z) * Real.sin (atan2 x z)) := by ring
          _ = (L + U) / d * x := by rw [hpol]
      · push_neg at hrot
        obtain ⟨hz, hx⟩ := hrot
        subst hz
        subst hx
        norm_num
    · by_cases hrot : z ≠ 0 ∨ x ≠ 0
      · rw [if_pos hrot, rad_deg]
        have hpol := sqrt_mul_cos_atan2 x z
        rw [show Real.sqrt (z * z + x * x) = Real.sqrt (x * x + z * z) from by rw [add_comm]] at hpol
        calc Real.sqrt (x * x + z * z) * ((L + U) / d) * Real.cos (atan2 x z)
            = (L + U) / d * (Real.sqrt (x * x + z * z) * Real.cos (atan2 x z)) := by ring
          _ = (L + U) / d * z := by rw [hpol]
      · push_neg at hrot
        obtain ⟨hz, hx⟩ := hrot
        subst hz
        subst hx
        norm_num
  refine ⟨hfk, ?_⟩
  rw [hfk]
  unfold dist3
  dsimp only
  have hinner2 : ((L + U) / d * x - 0) * ((L + U) / d * x - 0)
      + (bh + (L + U) / d * (y - bh) - bh) * (bh + (L + U) / d * (y - bh) - bh)
      + ((L + U) / d * z - 0) * ((L + U) / d * z - 0)
      = ((L + U) / d * d) * ((L + U) / d * d) := by
    linear_combination (((L + U) / d) * ((L + U) / d)) * hdd
  rw [hinner2, hsd, Real.sqrt_mul_self (by positivity : (0:ℝ) ≤ L + U)]

/-- Below the base plane the vertical component clamps to zero. -/
lemma vertical_dist_below (bh x y z : ℝ) (hy : y - bh < 0) :
    vertical_dist bh ⟨x, y, z⟩ = 0 := by
  unfold vertical_dist
  dsimp only
  rw [if_pos hy]

/-- Horizontal distance of the C1 counterexample target. -/
lemma horizontal_dist_c1 : horizontal_dist ⟨(10:ℝ), 0, 0⟩ = 10 := by
  unfold horizontal_dist
  dsimp only
  rw [show ((10:ℝ) * 10 + 0 * 0) = 10 ^ 2 by norm_num, Real.sqrt_sq (by norm_num : (0:ℝ) ≤ 10)]

/-- Solver distance of the C1 counterexample target: the below-base target
`(10, 0, 0)` is treated as if at height `baseHeight`. -/
lemma target_dist_c1 : target_dist 60 ⟨(10:ℝ), 0, 0⟩ = 10 := by
  unfold target_dist
  rw [horizontal_dist_c1, vertical_dist_below 60 10 0 0 (by norm_num)]
  rw [show ((10:ℝ) * 10 + 0 * 0) = 10 ^ 2 by norm_num, Real.sqrt_sq (by norm_num : (0:ℝ) ≤ 10)]

/-- On the positive `y` half-axis the angle is a quarter turn: sine one. -/
lemma sin_atan2_pos_zero (a : ℝ) (ha : 0 < a) : Real.sin (atan2 a 0) = 1 := by
  have h1 : Real.sqrt (0 * 0 + a * a) = a := by
    rw [show ((0:ℝ) * 0 + a * a) = a ^ 2 by ring, Real.sqrt_sq ha.le]
  have h2 := sqrt_mul_sin_atan2 a 0
  rw [h1] at h2
  have := mul_left_cancel₀ (ne_of_gt ha) (h2.trans (mul_one a).symm)
  exact this

/-- On the positive `y` half-axis the angle is a quarter turn: cosine zero. -/
lemma cos_atan2_pos_zero (a : ℝ) (ha : 0 < a) : Real.cos (atan2 a 0) = 0 := by
  have h1 : Real.sqrt (0 * 0 + a * a) = a := by
    rw [show ((0:ℝ) * 0 + a * a) = a ^ 2 by ring, Real.sqrt_sq ha.le]
  have h2 := sqrt_mul_cos_atan2 a 0
  rw [h1] at h2
  have := mul_left_cancel₀ (ne_of_gt ha) (h2.trans (mul_zero a).symm)
  exact this

/-- Evaluating the pipeline at the C1 counterexample target `(10, 0, 0)`:
the solver sees a clamped vertical component, so the arm lands at
`(10, 60, 0)`. -/
lemma c1_fk_value :
    forward_kinematics 120 120 60 (calculate_arm_angles 120 120 60 ⟨10, 0, 0⟩)
      = ⟨10, 60, 0⟩ := by
  have hfar : ¬ ((120:ℝ) + 120 < target_dist 60 ⟨10, 0, 0⟩) := by
    rw [target_dist_c1]
    norm_num
  have htd0 : (0:ℝ) < target_dist 60 ⟨10, 0, 0⟩ := by
    rw [target_dist_c1]
    norm_num
  have hDe : (10:ℝ) = Real.sqrt (10 * 10 + 0 * 0) := by
    rw [show ((10:ℝ) * 10 + 0 * 0) = 10 ^ 2 by norm_num, Real.sqrt_sq (by norm_num : (0:ℝ) ≤ 10)]
  have hplanar := planar_fk_reproduces 120 120 10 0 10 (by norm_num) (by norm_num)
    hDe (by norm_num) (by norm_num) (by norm_num)
  rw [calculate_arm_angles_in_reach 120 120 60 ⟨10, 0, 0⟩ (by norm_num) (by norm_num) hfar htd0]
  unfold forward_kinematics
  dsimp only
  rw [target_dist_c1, vertical_dist_below 60 10 0 0 (by norm_num), horizontal_dist_c1]
  rw [rad_sub, rad_deg, rad_deg, rad_sub, rad_180, rad_deg]
  rw [hplanar.1, hplanar.2]
  rw [if_pos (Or.inr (by norm_num : (10:ℝ) ≠ 0)), rad_deg]
  rw [sin_atan2_pos_zero 10 (by norm_num), cos_atan2_pos_zero 10 (by norm_num)]
  simp only [Vec3R.mk.injEq]
  norm_num

/-- C1 fails as stated: the target `(10, 0, 0)` (with the default geometry
`L = U = 120`, `baseHeight = 60`) is within `L + U` of the base, yet the
forward kinematics of the solver's output misses it by `60` units — far
more than `1e-3` — because the solver clamps the below-base vertical
component to zero. -/
theorem C1_counterexample :
    Real.sqrt (10 * 10 + 0 * 0 + ((0:ℝ) - 60) * (0 - 60)) ≤ 120 + 120 ∧
    (1/1000 : ℝ) <
      dist3 (forward_kinematics 120 120 60 (calculate_arm_angles 120 120 60 ⟨10, 0, 0⟩))
        ⟨10, 0, 0⟩ := by
  constructor
  · calc Real.sqrt (10 * 10 + 0 * 0 + ((0:ℝ) - 60) * (0 - 60))
        ≤ Real.sqrt (240 ^ 2) := Real.sqrt_le_sqrt (by norm_num)
      _ = 240 := Real.sqrt_sq (by norm_num : (0:ℝ) ≤ 240)
      _ = 120 + 120 := by norm_num
  · rw [c1_fk_value]
    unfold dist3
    dsimp only
    rw [show (((10:ℝ) - 10) * (10 - 10) + (60 - 0) * (60 - 0) + (0 - 0) * (0 - 0)) = 60 ^ 2
          by norm_num,
        Real.sqrt_sq (by norm_num : (0:ℝ) ≤ 60)]
    norm_num

/-- Horizontal distance of the C2 counterexample target. -/
lemma horizontal_dist_c2 : horizontal_dist ⟨(300:ℝ), 0, 0⟩ = 300 := by
  unfold horizontal_dist
  dsimp only
  rw [show ((300:ℝ) * 300 + 0 * 0) = 300 ^ 2 by norm_num,
      Real.sqrt_sq (by norm_num : (0:ℝ) ≤ 300)]

/-- Solver distance of the C2 counterexample target. -/
lemma target_dist_c2 : target_dist 60 ⟨(300:ℝ), 0, 0⟩ = 300 := by
  unfold target_dist
  rw [horizontal_dist_c2, vertical_dist_below 60 300 0 0 (by norm_num)]
  rw [show ((300:ℝ) * 300 + 0 * 0) = 300 ^ 2 by norm_num,
      Real.sqrt_sq (by norm_num : (0:ℝ) ≤ 300)]

/-- Evaluating the pipeline at the C2 counterexample target `(300, 0, 0)`:
after the vertical clamp and the reachability clamp the arm lands at
`(240, 60, 0)`. -/
lemma c2_fk_value :
    forward_kinematics 120 120 60 (calculate_arm_angles 120 120 60 ⟨300, 0, 0⟩)
      = ⟨240, 60, 0⟩ := by
  have hfar : (120:ℝ) + 120 < target_dist 60 ⟨300, 0, 0⟩ := by
    rw [target_dist_c2]
    norm_num
  have hDe : (120:ℝ) + 120 = Real.sqrt
      ((300 * ((120 + 120) / 300)) * (300 * ((120 + 120) / 300))
        + (0 * ((120 + 120) / 300)) * (0 * ((120 + 120) / 300))) := by
    rw [show (((300:ℝ) * ((120 + 120) / 300)) * (300 * ((120 + 120) / 300))
          + (0 * ((120 + 120) / 300)) * (0 * ((120 + 120) / 300))) = 240 ^ 2 by norm_num,
        Real.sqrt_sq (by norm_num : (0:ℝ) ≤ 240)]
    norm_num
  have hplanar := planar_fk_reproduces 120 120 (300 * ((120 + 120) / 300))
    (0 * ((120 + 120) / 300)) (120 + 120) (by norm_num) (by norm_num)
    hDe (by norm_num) (by norm_num) (by norm_num)
  rw [calculate_arm_angles_beyond 120 120 60 ⟨300, 0, 0⟩ (by norm_num) (by norm_num) hfar]
  unfold forward_kinematics
  dsimp only
  rw [target_dist_c2, vertical_dist_below 60 300 0 0 (by norm_num), horizontal_dist_c2]
  rw [rad_sub, rad_deg, rad_deg, rad_sub, rad_180, rad_deg]
  rw [hplanar.1, hplanar.2]
  rw [if_pos (Or.inr (by norm_num : (300:ℝ) ≠ 0)), rad_deg]
  rw [sin_atan2_pos_zero 300 (by norm_num), cos_atan2_pos_zero 300 (by norm_num)]
  simp only [Vec3R.mk.injEq]
  norm_num

/-- C2 fails as stated: the target `(300, 0, 0)` (default geometry) is
beyond max reach, but the solver's output reproduces `(240, 60, 0)`, which
is not the point at distance `L + U` from the base pivot `(0, 60, 0)` along
the original target direction — that point,
`pivot + ((L+U)/d) • (target - pivot)`, has `y`-coordinate strictly below
`60`, because the solver clamps the below-base vertical component before
scaling. -/
theorem C2_counterexample :
    ((120:ℝ) + 120 < Real.sqrt (300 * 300 + 0 * 0 + ((0:ℝ) - 60) * (0 - 60))) ∧
    forward_kinematics 120 120 60 (calculate_arm_angles 120 120 60 ⟨300, 0, 0⟩)
      = ⟨240, 60, 0⟩ ∧
    (⟨240, 60, 0⟩ : Vec3R) ≠
      ⟨0 + (120 + 120) / Real.sqrt (300 * 300 + 0 * 0 + ((0:ℝ) - 60) * (0 - 60)) * (300 - 0),
       60 + (120 + 120) / Real.sqrt (300 * 300 + 0 * 0 + ((0:ℝ) - 60) * (0 - 60)) * (0 - 60),
       0 + (120 + 120) / Real.sqrt (300 * 300 + 0 * 0 + ((0:ℝ) - 60) * (0 - 60)) * (0 - 0)⟩ := by
  have hd2 : Real.sqrt (300 * 300 + 0 * 0 + ((0:ℝ) - 60) * (0 - 60)) = Real.sqrt 93600 := by
    norm_num
  have hdpos : (0:ℝ) < Real.sqrt 93600 := Real.sqrt_pos.mpr (by norm_num)
  refine ⟨?_, c2_fk_value, ?_⟩
  · rw [hd2]
    calc (120:ℝ) + 120 = Real.sqrt (240 ^ 2) := by
          rw [Real.sqrt_sq (by norm_num : (0:ℝ) ≤ 240)]
          norm_num
      _ < Real.sqrt 93600 := Real.sqrt_lt_sqrt (by positivity) (by norm_num)
  · intro hcontra
    have hy := congrArg Vec3R.y hcontra
    dsimp only at hy
    rw [hd2] at hy
    have hne : (120 + 120 : ℝ) / Real.sqrt 93600 * (0 - 60) ≠ 0 := by
      apply mul_ne_zero
      · exact div_ne_zero (by norm_num) (ne_of_gt hdpos)
      · norm_num
    apply hne
    linarith

/-- Witness for `C1_within_reach_exact` at the in-reach target
`(0, 200, 0)` with the default geometry. -/
theorem C1_within_reach_exact_witness :
    forward_kinematics 120 120 60 (calculate_arm_angles 120 120 60 ⟨0, 200, 0⟩)
      = ⟨0, 200, 0⟩ :=
  C1_within_reach_exact 120 120 60 0 200 0 (by norm_num) (by norm_num) (by norm_num)
    (by norm_num)
    (by rw [show ((0:ℝ) * 0 + 0 * 0 + (200 - 60) * (200 - 60)) = 140 ^ 2 by norm_num,
            Real.sqrt_sq (by norm_num : (0:ℝ) ≤ 140)]
        norm_num)
    (by rw [show |(120:ℝ) - 120| = 0 by norm_num]
        exact Real.sqrt_nonneg _)

/-- Witness for `C2_beyond_reach_clamped` at the out-of-reach target
`(0, 400, 0)` with the default geometry. -/
theorem C2_beyond_reach_clamped_witness :
    (forward_kinematics 120 120 60 (calculate_arm_angles 120 120 60 ⟨0, 400, 0⟩)
      = ⟨(120 + 120) / Real.sqrt (0 * 0 + 0 * 0 + ((400:ℝ) - 60) * (400 - 60)) * 0,
         60 + (120 + 120) / Real.sqrt (0 * 0 + 0 * 0 + ((400:ℝ) - 60) * (400 - 60)) * (400 - 60),
         (120 + 120) / Real.sqrt (0 * 0 + 0 * 0 + ((400:ℝ) - 60) * (400 - 60)) * 0⟩) ∧
    dist3 (forward_kinematics 120 120 60 (calculate_arm_angles 120 120 60 ⟨0, 400, 0⟩))
        ⟨0, 60, 0⟩ = 120 + 120 :=
  C2_beyond_reach_clamped 120 120 60 0 400 0 (by norm_num) (by norm_num) (by norm_num)
    (by rw [show ((0:ℝ) * 0 + 0 * 0 + (400 - 60) * (400 - 60)) = 340 ^ 2 by norm_num,
            Real.sqrt_sq (by norm_num : (0:ℝ) ≤ 340)]
        norm_num)

/-- Witness for `C7_degenerate_fallback` at the origin target. -/
theorem C7_degenerate_fallback_witness :
    (calculate_arm_angles 120 120 60 ⟨0, 0, 0⟩).lower_arm = 45 ∧
    (calculate_arm_angles 120 120 60 ⟨0, 0, 0⟩).upper_arm = 90 :=
  C7_degenerate_fallback 120 120 60 ⟨0, 0, 0⟩ (by norm_num) (by norm_num)
    (by unfold target_dist horizontal_dist vertical_dist
        dsimp only
        rw [if_pos (by norm_num : (0:ℝ) - 60 < 0)]
        norm_num [Real.sqrt_zero])
